import Mathlib

/-!
Shallow embedding of the chip-8 interpreter in src/chip.c.

Machine state (the C globals) is a structure; each instruction handler
becomes a state-transformer on it.  C uint8 arithmetic is Nat with an
explicit % 256 at every store, uint16 likewise with % 65536 where it can
wrap; the ERRCHK macro (which calls exit on failure) is modelled by an
`ok` flag that a failed check sets to false, together with returning
without performing the guarded effect.
-/

namespace Chip8

def MEMORY_SIZE : Nat := 4096
def REGISTER_COUNT : Nat := 16
def STACK_SIZE : Nat := 24
def OPCODE_SIZE : Nat := 2
def TIMER_RATE : Nat := 60
def DISPLAY_WIDTH : Nat := 64
def DISPLAY_HEIGHT : Nat := 32

/-- Display coordinate policy, the C enum DisplayMode. -/
inductive DisplayMode where
  | WRAP : DisplayMode
  | CLAMP : DisplayMode
deriving DecidableEq

/-- The mutable machine state: the static arrays and scalars of chip.c.
Byte arrays are Nat-indexed Nat-valued maps whose stored values are kept
below 256 by the explicit truncation at each store; `ok` is true as long
as no ERRCHK has failed (the C program would have exited otherwise). -/
structure Chip where
  memory : Nat → Nat
  registers : Nat → Nat
  stack : Nat → Nat
  display : Nat → Nat
  pc : Nat
  address_register : Nat
  stack_register : Nat
  delay_timer : Nat
  sound_timer : Nat
  ok : Bool

/-- Instruction 00EE: pop the call stack into pc; ERRCHK(stack_register). -/
def ret (c : Chip) : Chip :=
  if c.stack_register = 0 then { c with ok := false }
  else { c with stack_register := c.stack_register - 1,
                pc := c.stack (c.stack_register - 1) }

/-- Instruction 1NNN: jump, with the self-jump guard
ERRCHK(pc - OPCODE_SIZE != addr).  The C subtraction pc - OPCODE_SIZE is
performed in size_t, hence modulo 2 ^ 64. -/
def jmp (addr : Nat) (c : Chip) : Chip :=
  if (c.pc + (2 ^ 64 - OPCODE_SIZE)) % 2 ^ 64 = addr then { c with ok := false }
  else { c with pc := addr }

/-- Instruction 2NNN: push the current pc and jump;
ERRCHK(stack_register < STACK_SIZE). -/
def call (addr : Nat) (c : Chip) : Chip :=
  if c.stack_register < STACK_SIZE then
    { c with stack := Function.update c.stack c.stack_register c.pc,
             stack_register := c.stack_register + 1,
             pc := addr }
  else { c with ok := false }

/-- Instruction 7XNN: registers[vx] = registers[vx] + val (uint8 wrap,
no flag update). -/
def add (vx val : Nat) (c : Chip) : Chip :=
  { c with registers := Function.update c.registers vx ((c.registers vx + val) % 256) }

/-- Instruction 8XY4: registers[vx] += registers[vy], then
registers[0xf] = registers[vy] > registers[vx], the comparison reading
the already-updated array. -/
def add_reg (vx vy : Nat) (c : Chip) : Chip :=
  let r1 := Function.update c.registers vx ((c.registers vx + c.registers vy) % 256)
  { c with registers := Function.update r1 15 (if r1 vx < r1 vy then 1 else 0) }

/-- Instruction 8XY5: registers[0xf] = registers[vx] > registers[vy],
then registers[vx] -= registers[vy] (uint8 wrap), the subtraction
reading the array already holding the flag. -/
def sub_reg (vx vy : Nat) (c : Chip) : Chip :=
  let r1 := Function.update c.registers 15 (if c.registers vy < c.registers vx then 1 else 0)
  { c with registers := Function.update r1 vx ((r1 vx + 256 - r1 vy) % 256) }

/-- Instruction 8XY6: registers[0xf] = registers[vx] & 1, then
registers[vx] >>= 1, the shift reading the array already holding the
flag. -/
def shr_reg (vx : Nat) (c : Chip) : Chip :=
  let r1 := Function.update c.registers 15 (c.registers vx % 2)
  { c with registers := Function.update r1 vx (r1 vx / 2) }

/-- Instruction 8XY7: registers[0xf] = registers[vy] > registers[vx],
then registers[vx] = registers[vy] - registers[vx] (uint8 wrap), both
operands read from the array already holding the flag. -/
def subn_reg (vx vy : Nat) (c : Chip) : Chip :=
  let r1 := Function.update c.registers 15 (if c.registers vx < c.registers vy then 1 else 0)
  { c with registers := Function.update r1 vx ((r1 vy + 256 - r1 vx) % 256) }

/-- Instruction 8XYE: registers[0xf] = registers[vx] >> 7, then
registers[vx] <<= 1 (uint8 wrap), the shift reading the array already
holding the flag. -/
def shl_reg (vx : Nat) (c : Chip) : Chip :=
  let r1 := Function.update c.registers 15 (c.registers vx / 128)
  { c with registers := Function.update r1 vx (r1 vx * 2 % 256) }

/-- Instruction CXNN: registers[vx] = (uint8_t)(rand() % 255) & mask,
with r the value returned by rand(). -/
def rnd (vx mask r : Nat) (c : Chip) : Chip :=
  { c with registers := Function.update c.registers vx ((Nat.land (r % 255 % 256) mask) % 256) }

/-- Instruction FX33: write value/100, value/10 % 10 and value % 10 to
memory at address_register, +1, +2. -/
def bcd (vx : Nat) (c : Chip) : Chip :=
  let m1 := Function.update c.memory (c.address_register + 0) (c.registers vx / 100 % 256)
  let m2 := Function.update m1 (c.address_register + 1) (c.registers vx / 10 % 10 % 256)
  { c with memory := Function.update m2 (c.address_register + 2) (c.registers vx % 10 % 256) }

/-- Instruction FX55: ERRCHK(vx < REGISTER_COUNT), then copy registers
0..vx to memory starting at address_register.  The loop performs no
bound check on the memory index. -/
def reg_dump (vx : Nat) (c : Chip) : Chip :=
  if vx < REGISTER_COUNT then
    let m := (List.range (vx + 1)).foldl
      (fun m i => Function.update m (c.address_register + i) (c.registers i)) c.memory
    { c with memory := m }
  else { c with ok := false }

/-- Loop body of reg_load: for each i in turn,
ERRCHK(address_register + i < MEMORY_SIZE) and then load
registers[i] = memory[address_register + i]; a failed check stops the
loop (the C program exits). -/
def reg_load_loop (ar : Nat) (m : Nat → Nat) (regs : Nat → Nat) (i : Nat) :
    Nat → Bool × (Nat → Nat)
  | 0 => (true, regs)
  | n + 1 =>
    if ar + i < MEMORY_SIZE then
      reg_load_loop ar m (Function.update regs i (m (ar + i))) (i + 1) n
    else (false, regs)

/-- Instruction FX65: ERRCHK(vx < REGISTER_COUNT), then load registers
0..vx from memory starting at address_register, with a per-iteration
memory bound check. -/
def reg_load (vx : Nat) (c : Chip) : Chip :=
  if vx < REGISTER_COUNT then
    let r := reg_load_loop c.address_register c.memory c.registers 0 (vx + 1)
    { c with registers := r.2, ok := c.ok && r.1 }
  else { c with ok := false }

/-- Timer block at the head of instruction_cycle: with elapsed the
wall-clock milliseconds end - start, when elapsed reaches the timer
interval each non-zero timer is decremented by one. -/
def timer_driver (elapsed : Nat) (c : Chip) : Chip :=
  if 1000 / TIMER_RATE ≤ elapsed then
    { c with
      delay_timer := if c.delay_timer ≠ 0 then c.delay_timer - 1 else c.delay_timer,
      sound_timer := if c.sound_timer ≠ 0 then c.sound_timer - 1 else c.sound_timer }
  else c

/-- Accumulator threaded through the draw loops: the display array, the
collision flag that ends in registers[0xf], and the ok flag fed by the
ERRCHK calls inside display_idx. -/
structure DrawSt where
  d : Nat → Nat
  f : Nat
  ok : Bool

/-- The C display_idx: ERRCHK(i < DISPLAY_WIDTH), ERRCHK(j < DISPLAY_HEIGHT),
return i + j * DISPLAY_WIDTH.  The pair carries the index and whether the
checks passed. -/
def display_idx (i j : Nat) : Nat × Bool :=
  (i + j * DISPLAY_WIDTH, decide (i < DISPLAY_WIDTH) && decide (j < DISPLAY_HEIGHT))

/-- Test of bit i1 of a sprite row byte, the C expression
b & (0x80 >> i1) as a Bool. -/
def spriteBit (b i1 : Nat) : Bool :=
  Nat.land b (128 >>> i1) != 0

/-- XOR one display cell: record a collision in the flag if the cell is
set, then flip it (uint8 store). -/
def xorPixel (i j : Nat) (s : DrawSt) : DrawSt :=
  let p := display_idx i j
  { d := Function.update s.d p.1 (Nat.xor (s.d p.1) 1 % 256),
    f := if s.d p.1 ≠ 0 then 1 else s.f,
    ok := s.ok && p.2 }

/-- Inner loop of draw over the remaining column offsets i1 of one
sprite row: skip unset bits; in WRAP mode wrap each coordinate by the
display dimension; in CLAMP mode truncate the uint8 sums and stop the
row (the C break) at the first set bit whose cell is past an edge. -/
def drawCols (mode : DisplayMode) (b i0 j0 j1 : Nat) : List Nat → DrawSt → DrawSt
  | [], s => s
  | i1 :: rest, s =>
    if spriteBit b i1 then
      match mode with
      | DisplayMode.WRAP =>
        drawCols mode b i0 j0 j1 rest
          (xorPixel ((i0 + i1) % DISPLAY_WIDTH) ((j0 + j1) % DISPLAY_HEIGHT) s)
      | DisplayMode.CLAMP =>
        if DISPLAY_WIDTH ≤ (i0 + i1) % 256 ∨ DISPLAY_HEIGHT ≤ (j0 + j1) % 256 then s
        else drawCols mode b i0 j0 j1 rest (xorPixel ((i0 + i1) % 256) ((j0 + j1) % 256) s)
    else drawCols mode b i0 j0 j1 rest s

/-- Outer loop of draw over the remaining row offsets j1, each row
reading its sprite byte at memory[address_register + j1]. -/
def drawRows (mode : DisplayMode) (mem : Nat → Nat) (ar i0 j0 : Nat) :
    List Nat → DrawSt → DrawSt
  | [], s => s
  | j1 :: rest, s =>
    drawRows mode mem ar i0 j0 rest
      (drawCols mode (mem (ar + j1)) i0 j0 j1 (List.range 8) s)

/-- Instruction DXYN: read the start coordinates from registers vx and
vy, clear the collision flag, draw height sprite rows, store the flag in
registers[0xf]. -/
def draw (mode : DisplayMode) (vx vy height : Nat) (c : Chip) : Chip :=
  let s := drawRows mode c.memory c.address_register (c.registers vx) (c.registers vy)
      (List.range height) ⟨c.display, 0, c.ok⟩
  { c with display := s.d,
           registers := Function.update c.registers 15 s.f,
           ok := s.ok }

/-- Sequence of call instructions executed back to back. -/
def callSeq : List Nat → Chip → Chip
  | [], c => c
  | a :: as, c => callSeq as (call a c)

/-- Sequence of n return instructions executed back to back. -/
def retSeq : Nat → Chip → Chip
  | 0, c => c
  | n + 1, c => retSeq n (ret c)

/-- The pc values pushed by a sequence of calls: each call pushes the pc
current when it executes. -/
def pushTrace (c : Chip) : List Nat → List Nat
  | [] => []
  | a :: as => c.pc :: pushTrace (call a c) as

/-- The pc values observed after each of n successive returns. -/
def retTrace : Nat → Chip → List Nat
  | 0, _ => []
  | n + 1, c => (ret c).pc :: retTrace n (ret c)

/-- A freshly zeroed machine state with the default initial pc. -/
def chipZero : Chip :=
  { memory := fun _ => 0, registers := fun _ => 0, stack := fun _ => 0,
    display := fun _ => 0, pc := 512, address_register := 0, stack_register := 0,
    delay_timer := 0, sound_timer := 0, ok := true }

/-- State with registers 0 and 15 holding 200, used to exhibit the flag
behaviour of the shift and add instructions at X = 15 and X = Y. -/
def chipC1 : Chip :=
  { chipZero with registers := fun i => if i = 15 then 200 else if i = 0 then 200 else 0 }

/-- State for the flag-semantics witness: register 3 holds 200 and
register 4 holds 100. -/
def chipW1 : Chip :=
  { chipZero with registers := fun i => if i = 3 then 200 else if i = 4 then 100 else 0 }

/-- State whose address register points at the last memory cell, with
register 1 holding 7. -/
def chipC2 : Chip :=
  { chipZero with registers := fun i => if i = 1 then 7 else 0, address_register := 4095 }

/-- State for the binary-coded-decimal witness: register 2 holds 199 and
the address register holds 50. -/
def chipW6 : Chip :=
  { chipZero with registers := fun i => if i = 2 then 199 else 0, address_register := 50 }

/-- State with a non-zero delay timer for the timer-driver witness. -/
def chipW8 : Chip :=
  { chipZero with delay_timer := 5 }

/-- State with sixteen pairwise distinct register values and the
address register at 100, for the block store/load witness. -/
def chipW5 : Chip :=
  { chipZero with registers := fun i => (i * 17 + 3) % 256, address_register := 100 }

/-- State for the clamp-mode draw counterexample: the x-coordinate
register holds 250, past the right display edge, and the single sprite
row at memory cell 0 is the byte 1 (only its lowest bit set). -/
def chipC3 : Chip :=
  { chipZero with registers := fun i => if i = 0 then 250 else 0,
                  memory := fun a => if a = 0 then 1 else 0 }

/-- State for the draw witness: sprite coordinates (10, 5) from
registers 0 and 1, one sprite row 0x80 at memory cell 0. -/
def chipW3 : Chip :=
  { chipZero with registers := fun i => if i = 0 then 10 else if i = 1 then 5 else 0,
                  memory := fun a => if a = 0 then 128 else 0 }

/- ------------------------------------------------------------------ -/
/- Theorems.                                                          -/
/- ------------------------------------------------------------------ -/

/-- C1 (counterexample).  The claim that the 8XY4/8XY5/8XY7/8XY6/8XYE
flag write is a correct carry/borrow/shift-out bit in {0,1} for all X
and Y fails: with X = 15, 8XYE leaves the flag register equal to 2, and
with X = Y = 0 and register 0 holding 200, 8XY4 wraps with a carry yet
leaves the flag register 0. -/
theorem flag_not_carry_counterexample :
    (shl_reg 15 chipC1).registers 15 = 2 ∧
    256 ≤ chipC1.registers 0 + chipC1.registers 0 ∧
    (add_reg 0 0 chipC1).registers 15 = 0 := by
  refine ⟨by decide, by decide, by decide⟩

/-- C1 (amended).  For the register add 8XY4 with X different from Y
(X = 15 included, since its flag write comes after the destination
write), and for 8XY5, 8XY7, 8XY6 and 8XYE with X different from 15, the
flag register ends in {0,1} and equals the documented carry (sum
reached 256), borrow comparison (Vx > Vy for 8XY5, Vy > Vx for 8XY7),
or shifted-out bit (low bit for 8XY6, high bit for 8XYE) of the
pre-instruction register values, also when the destination register
wraps; the 8XY4 flag is in {0,1} even when X = Y. -/
theorem flag_register_semantics (vx vy : Nat) (c : Chip)
    (h256 : ∀ i, c.registers i < 256) :
    (vx ≠ vy → (add_reg vx vy c).registers 15 =
      (if 256 ≤ c.registers vx + c.registers vy then 1 else 0)) ∧
    (vx ≠ 15 →
      (sub_reg vx vy c).registers 15 = (if c.registers vy < c.registers vx then 1 else 0)) ∧
    (vx ≠ 15 →
      (subn_reg vx vy c).registers 15 = (if c.registers vx < c.registers vy then 1 else 0)) ∧
    (vx ≠ 15 → (shr_reg vx c).registers 15 = c.registers vx % 2) ∧
    (vx ≠ 15 → (shl_reg vx c).registers 15 = c.registers vx / 128) ∧
    (add_reg vx vy c).registers 15 ≤ 1 ∧
    (vx ≠ 15 → (sub_reg vx vy c).registers 15 ≤ 1) ∧
    (vx ≠ 15 → (subn_reg vx vy c).registers 15 ≤ 1) ∧
    (vx ≠ 15 → (shr_reg vx c).registers 15 ≤ 1) ∧
    (vx ≠ 15 → (shl_reg vx c).registers 15 ≤ 1) := by
  have ha := h256 vx
  have hb := h256 vy
  refine ⟨?_, ?_, ?_, ?_, ?_, ?_, ?_, ?_, ?_, ?_⟩
  · intro hxy
    have hyx : vy ≠ vx := fun h => hxy h.symm
    simp only [add_reg, Function.update_same, Function.update_noteq hyx]
    split_ifs <;> omega
  · intro hx
    have h15 : (15 : Nat) ≠ vx := fun h => hx h.symm
    simp only [sub_reg, Function.update_noteq h15, Function.update_same]
  · intro hx
    have h15 : (15 : Nat) ≠ vx := fun h => hx h.symm
    simp only [subn_reg, Function.update_noteq h15, Function.update_same]
  · intro hx
    have h15 : (15 : Nat) ≠ vx := fun h => hx h.symm
    simp only [shr_reg, Function.update_noteq h15, Function.update_same]
  · intro hx
    have h15 : (15 : Nat) ≠ vx := fun h => hx h.symm
    simp only [shl_reg, Function.update_noteq h15, Function.update_same]
  · simp only [add_reg, Function.update_same]
    split_ifs <;> omega
  · intro hx
    have h15 : (15 : Nat) ≠ vx := fun h => hx h.symm
    simp only [sub_reg, Function.update_noteq h15, Function.update_same]
    split_ifs <;> omega
  · intro hx
    have h15 : (15 : Nat) ≠ vx := fun h => hx h.symm
    simp only [subn_reg, Function.update_noteq h15, Function.update_same]
    split_ifs <;> omega
  · intro hx
    have h15 : (15 : Nat) ≠ vx := fun h => hx h.symm
    simp only [shr_reg, Function.update_noteq h15, Function.update_same]
    omega
  · intro hx
    have h15 : (15 : Nat) ≠ vx := fun h => hx h.symm
    simp only [shl_reg, Function.update_noteq h15, Function.update_same]
    omega

/-- C1 (witness).  The amended flag semantics evaluated at registers
3 := 200, 4 := 100 and 15 := 0: the shift-left flag is the high bit,
the add flag records the carry of 200 + 100, and the add into register
15 itself leaves the correct no-carry flag of 0 + 100. -/
theorem flag_register_semantics_witness :
    (∀ i, chipW1.registers i < 256) ∧ (3 : Nat) ≠ 15 ∧ (15 : Nat) ≠ 4 ∧
    (shl_reg 3 chipW1).registers 15 = chipW1.registers 3 / 128 ∧
    (add_reg 3 4 chipW1).registers 15 = 1 ∧
    (add_reg 15 4 chipW1).registers 15 = 0 := by
  have hr : ∀ i, chipW1.registers i < 256 := by
    intro i
    simp only [chipW1, chipZero]
    split_ifs <;> omega
  have h := flag_register_semantics 3 4 chipW1 hr
  have h2 := flag_register_semantics 15 4 chipW1 hr
  exact ⟨hr, by decide, by decide, h.2.2.2.2.1 (by decide),
    (h.1 (by decide)).trans (by decide), (h2.1 (by decide)).trans (by decide)⟩

/-- C2.  Register block store at the edge of memory: with the address
register at 4095 and N = 1, reg_dump performs the write at offset 4096,
one past the 4096-byte memory, with no check having failed — the
fatal-before-access behaviour the claim requires does not happen on the
store path (reg_load does carry the per-cell bound check). -/
theorem reg_dump_out_of_bounds_write :
    (reg_dump 1 chipC2).ok = true ∧
    chipC2.memory MEMORY_SIZE = 0 ∧
    (reg_dump 1 chipC2).memory MEMORY_SIZE = 7 := by
  refine ⟨by decide, by decide, by decide⟩

/-- C6.  The binary-coded-decimal instruction writes the hundreds, tens
and units digits of the register value to the three consecutive cells at
the address register. -/
theorem bcd_digits (vx : Nat) (c : Chip) (h : c.registers vx < 256) :
    (bcd vx c).memory c.address_register = c.registers vx / 100 % 10 ∧
    (bcd vx c).memory (c.address_register + 1) = c.registers vx / 10 % 10 ∧
    (bcd vx c).memory (c.address_register + 2) = c.registers vx % 10 := by
  refine ⟨?_, ?_, ?_⟩ <;>
    simp only [bcd, Function.update_apply] <;>
    split_ifs <;> omega

/-- C6 (witness).  Binary-coded-decimal of register value 199 yields
memory cells (1, 9, 9); the value 1 yields (0, 0, 1) on the same
machine via register 0. -/
theorem bcd_digits_witness :
    chipW6.registers 2 < 256 ∧
    (bcd 2 chipW6).memory chipW6.address_register = 1 ∧
    (bcd 2 chipW6).memory (chipW6.address_register + 1) = 9 ∧
    (bcd 2 chipW6).memory (chipW6.address_register + 2) = 9 := by
  have h := bcd_digits 2 chipW6 (by decide)
  exact ⟨by decide, h.1.trans (by decide), h.2.1.trans (by decide), h.2.2.trans (by decide)⟩

/-- C7.  The jump instruction fails fatally exactly when the target
equals the jump's own address (the post-fetch pc minus one opcode), and
otherwise sets the pc to the target. -/
theorem jmp_self_guard (addr : Nat) (c : Chip)
    (h1 : OPCODE_SIZE ≤ c.pc) (h2 : c.pc < 65536) :
    (addr = c.pc - OPCODE_SIZE → (jmp addr c).ok = false) ∧
    (addr ≠ c.pc - OPCODE_SIZE → (jmp addr c).pc = addr ∧ (jmp addr c).ok = c.ok) := by
  have e : (2 : Nat) ^ 64 = 18446744073709551616 := by norm_num
  have key : ((c.pc + (18446744073709551616 - OPCODE_SIZE)) % 18446744073709551616 = addr) ↔
      (c.pc - OPCODE_SIZE = addr) := by
    simp only [OPCODE_SIZE] at *
    omega
  constructor
  · intro h
    simp only [jmp]
    rw [e, if_pos (key.mpr h.symm)]
  · intro h
    have h' : ¬ ((c.pc + (18446744073709551616 - OPCODE_SIZE)) % 18446744073709551616 = addr) :=
      fun hh => h (key.mp hh).symm
    simp only [jmp]
    rw [e, if_neg h']
    exact ⟨rfl, rfl⟩

/-- C7 (witness).  A jump at pc 514 targeting 512 fails fatally, while
one targeting 520 redirects the pc. -/
theorem jmp_self_guard_witness :
    OPCODE_SIZE ≤ chipZero.pc ∧ chipZero.pc < 65536 ∧
    (jmp 510 chipZero).ok = false ∧
    (jmp 520 chipZero).pc = 520 ∧ (jmp 520 chipZero).ok = chipZero.ok := by
  have h1 := (jmp_self_guard 510 chipZero (by decide) (by decide)).1 (by decide)
  have h2 := (jmp_self_guard 520 chipZero (by decide) (by decide)).2 (by decide)
  exact ⟨by decide, by decide, h1, h2.1, h2.2⟩

/-- C8.  The timer driver: on a tick where the 60 Hz interval has
elapsed, each non-zero timer is decremented by exactly one and a zero
timer stays zero; on any other tick both timers are untouched; neither
timer ever increases, and neither goes below zero (a zero timer is left
at zero rather than wrapped). -/
theorem timer_driver_spec (elapsed : Nat) (c : Chip) :
    (1000 / TIMER_RATE ≤ elapsed →
      (c.delay_timer ≠ 0 → (timer_driver elapsed c).delay_timer = c.delay_timer - 1) ∧
      (c.delay_timer = 0 → (timer_driver elapsed c).delay_timer = 0) ∧
      (c.sound_timer ≠ 0 → (timer_driver elapsed c).sound_timer = c.sound_timer - 1) ∧
      (c.sound_timer = 0 → (timer_driver elapsed c).sound_timer = 0)) ∧
    (¬ 1000 / TIMER_RATE ≤ elapsed →
      (timer_driver elapsed c).delay_timer = c.delay_timer ∧
      (timer_driver elapsed c).sound_timer = c.sound_timer) ∧
    (timer_driver elapsed c).delay_timer ≤ c.delay_timer ∧
    (timer_driver elapsed c).sound_timer ≤ c.sound_timer := by
  by_cases hfire : 1000 / TIMER_RATE ≤ elapsed
  · refine ⟨fun _ => ⟨?_, ?_, ?_, ?_⟩, fun h => absurd hfire h, ?_, ?_⟩ <;>
      simp only [timer_driver, if_pos hfire] <;>
      intros <;> split_ifs <;> omega
  · refine ⟨fun h => absurd h hfire, fun _ => ⟨?_, ?_⟩, ?_, ?_⟩ <;>
      simp [timer_driver, hfire]

/-- C8 (witness).  With a delay timer of 5 and sound timer 0: an elapsed
time of 16 ms decrements the delay timer to 4 and keeps the sound timer
at 0, while an elapsed time of 3 ms changes neither. -/
theorem timer_driver_spec_witness :
    (timer_driver 16 chipW8).delay_timer = chipW8.delay_timer - 1 ∧
    (timer_driver 16 chipW8).sound_timer = 0 ∧
    (timer_driver 3 chipW8).delay_timer = chipW8.delay_timer := by
  have hf := (timer_driver_spec 16 chipW8).1 (by decide)
  have hn := ((timer_driver_spec 3 chipW8).2.1 (by decide)).1
  exact ⟨hf.1 (by decide), hf.2.2.2 (by decide), hn⟩

/-- C9.  The add-immediate instruction 7XNN with X different from 15
leaves the flag register and every register other than X unchanged: it
records no carry. -/
theorem add_immediate_frame (vx val : Nat) (c : Chip) (hvx : vx ≠ 15) :
    (add vx val c).registers 15 = c.registers 15 ∧
    (∀ i, i ≠ vx → (add vx val c).registers i = c.registers i) := by
  constructor
  · simp [add, Function.update_noteq (fun h => hvx h.symm)]
  · intro i hi
    simp [add, Function.update_noteq hi]

/-- C9 (witness).  Adding an immediate to register 3 of the zeroed
machine leaves registers 15 and 4 unchanged. -/
theorem add_immediate_frame_witness :
    (3 : Nat) ≠ 15 ∧
    (add 3 250 chipZero).registers 15 = chipZero.registers 15 ∧
    (add 3 250 chipZero).registers 4 = chipZero.registers 4 := by
  have h := add_immediate_frame 3 250 chipZero (by decide)
  exact ⟨by decide, h.1, h.2 4 (by decide)⟩

/-- C10.  The random instruction stores (r mod 255) AND mask, where r is
the raw value from the pseudo-random source; the stored byte is at most
254, so 255 is never produced. -/
theorem rnd_masked_range (vx mask r : Nat) (c : Chip) :
    (rnd vx mask r c).registers vx = Nat.land (r % 255) mask ∧
    Nat.land (r % 255) mask ≤ 254 ∧
    (rnd vx mask r c).registers vx ≠ 255 := by
  have h1 : r % 255 < 255 := Nat.mod_lt _ (by norm_num)
  have h3 : Nat.land (r % 255) mask ≤ r % 255 := Nat.and_le_left
  have h2 : r % 255 % 256 = r % 255 := Nat.mod_eq_of_lt (by omega)
  have h4 : Nat.land (r % 255) mask % 256 = Nat.land (r % 255) mask :=
    Nat.mod_eq_of_lt (by omega)
  constructor
  · simp [rnd, Function.update_same, h2, h4]
  · exact ⟨by omega, by simp [rnd, Function.update_same, h2, h4]; omega⟩

/-- Memory cells written by the reg_dump loop: cell ar + i receives
register i for every i below the loop count. -/
lemma dump_foldl_get (regs : Nat → Nat) (ar : Nat) :
    ∀ (n : Nat) (m : Nat → Nat) (i : Nat), i < n →
      ((List.range n).foldl (fun m j => Function.update m (ar + j) (regs j)) m) (ar + i) =
        regs i := by
  intro n
  induction n with
  | zero => intro m i hi; omega
  | succ n ih =>
    intro m i hi
    rw [List.range_succ, List.foldl_append]
    simp only [List.foldl_cons, List.foldl_nil]
    by_cases h : i = n
    · subst h
      rw [Function.update_same]
    · rw [Function.update_noteq (by omega)]
      exact ih m i (by omega)

/-- Behaviour of the reg_load loop when every visited cell is in
bounds: it succeeds, loads each register in its range from memory, and
leaves registers below the start index untouched. -/
lemma reg_load_loop_spec (ar : Nat) (m : Nat → Nat) :
    ∀ (n : Nat) (regs : Nat → Nat) (i : Nat),
      (∀ j, i ≤ j → j < i + n → ar + j < MEMORY_SIZE) →
      (reg_load_loop ar m regs i n).1 = true ∧
      (∀ j, i ≤ j → j < i + n → (reg_load_loop ar m regs i n).2 j = m (ar + j)) ∧
      (∀ j, j < i → (reg_load_loop ar m regs i n).2 j = regs j) := by
  intro n
  induction n with
  | zero =>
    intro regs i h
    exact ⟨rfl, fun j hj1 hj2 => by omega, fun j hj => rfl⟩
  | succ n ih =>
    intro regs i h
    have hin : ar + i < MEMORY_SIZE := h i le_rfl (by omega)
    simp only [reg_load_loop, if_pos hin]
    obtain ⟨e1, e2, e3⟩ := ih (Function.update regs i (m (ar + i))) (i + 1)
      (fun j hj1 hj2 => h j (by omega) (by omega))
    refine ⟨e1, ?_, ?_⟩
    · intro j hj1 hj2
      by_cases hji : j = i
      · subst hji
        rw [e3 j (by omega), Function.update_same]
      · exact e2 j (by omega) (by omega)
    · intro j hj
      rw [e3 j (by omega), Function.update_noteq (by omega)]

/-- C5.  Register block store followed by block load with the same N
and address register restores registers 0..N and completes without a
fatal check, whenever the transfer stays inside memory. -/
theorem reg_dump_load_round_trip (vx : Nat) (c : Chip)
    (hvx : vx < REGISTER_COUNT) (har : c.address_register + vx < MEMORY_SIZE) :
    (∀ i, i ≤ vx → (reg_load vx (reg_dump vx c)).registers i = c.registers i) ∧
    (reg_load vx (reg_dump vx c)).ok = c.ok := by
  simp only [reg_dump, if_pos hvx, reg_load]
  obtain ⟨e1, e2, _⟩ := reg_load_loop_spec c.address_register
    ((List.range (vx + 1)).foldl
      (fun m j => Function.update m (c.address_register + j) (c.registers j)) c.memory)
    (vx + 1) c.registers 0 (fun j hj1 hj2 => by omega)
  constructor
  · intro i hi
    rw [e2 i (by omega) (by omega)]
    exact dump_foldl_get c.registers c.address_register (vx + 1) c.memory i (by omega)
  · rw [e1, Bool.and_true]

/-- C5 (witness).  A machine with registers i := (17 i + 3) mod 256 and
address register 100: dumping then loading all 16 registers returns
register 7 to its original value. -/
theorem reg_dump_load_round_trip_witness :
    15 < REGISTER_COUNT ∧ chipW5.address_register + 15 < MEMORY_SIZE ∧
    (reg_load 15 (reg_dump 15 chipW5)).registers 7 = chipW5.registers 7 := by
  exact ⟨by decide, by decide,
    (reg_dump_load_round_trip 15 chipW5 (by decide) (by decide)).1 7 (by decide)⟩

/-- Field-level description of a successful call. -/
lemma call_fields (a : Nat) (c : Chip) (h : c.stack_register < STACK_SIZE) :
    (call a c).stack_register = c.stack_register + 1 ∧
    (call a c).ok = c.ok ∧
    (call a c).pc = a ∧
    (call a c).stack = Function.update c.stack c.stack_register c.pc := by
  rw [call, if_pos h]
  exact ⟨rfl, rfl, rfl, rfl⟩

/-- Field-level description of a successful return. -/
lemma ret_fields (c : Chip) (h : c.stack_register ≠ 0) :
    (ret c).stack_register = c.stack_register - 1 ∧
    (ret c).ok = c.ok ∧
    (ret c).pc = c.stack (c.stack_register - 1) ∧
    (ret c).stack = c.stack := by
  rw [ret, if_neg h]
  exact ⟨rfl, rfl, rfl, rfl⟩

/-- The trace of pushed pc values has one entry per call. -/
lemma pushTrace_length : ∀ (addrs : List Nat) (c : Chip),
    (pushTrace c addrs).length = addrs.length := by
  intro addrs
  induction addrs with
  | nil => intro c; rfl
  | cons a as ih => intro c; simp [pushTrace, ih]

/-- A run of calls that fits in the stack: the stack register advances
by the number of calls, no check fails, entries below the starting
stack register are untouched, the new entries are exactly the pushed pc
trace, and that trace is the initial pc followed by all but the last
call target. -/
lemma callSeq_spec : ∀ (addrs : List Nat) (c : Chip),
    c.stack_register + addrs.length ≤ STACK_SIZE →
    (callSeq addrs c).stack_register = c.stack_register + addrs.length ∧
    (callSeq addrs c).ok = c.ok ∧
    (∀ j, j < c.stack_register → (callSeq addrs c).stack j = c.stack j) ∧
    (∀ k, k < addrs.length →
      (callSeq addrs c).stack (c.stack_register + k) = (pushTrace c addrs).getD k 0) ∧
    pushTrace c addrs = (c.pc :: addrs).dropLast := by
  intro addrs
  induction addrs with
  | nil =>
    intro c h
    exact ⟨by simp [callSeq], rfl, fun j hj => rfl, fun k hk => by simp at hk,
      by simp [pushTrace]⟩
  | cons a as ih =>
    intro c h
    simp only [List.length_cons] at h
    have hsr : c.stack_register < STACK_SIZE := by omega
    obtain ⟨f1, f2, f3, f4⟩ := call_fields a c hsr
    obtain ⟨ih1, ih2, ih3, ih4, ih5⟩ := ih (call a c) (by rw [f1]; omega)
    simp only [callSeq, pushTrace, List.length_cons]
    refine ⟨?_, ih2.trans f2, ?_, ?_, ?_⟩
    · rw [ih1, f1]
      omega
    · intro j hj
      rw [ih3 j (by omega), f4, Function.update_noteq (by omega)]
    · intro k hk
      match k with
      | 0 =>
        rw [List.getD_cons_zero, Nat.add_zero, ih3 c.stack_register (by omega), f4,
          Function.update_same]
      | k' + 1 =>
        have : c.stack_register + (k' + 1) = (call a c).stack_register + k' := by
          rw [f1]; omega
        rw [this, List.getD_cons_succ]
        exact ih4 k' (by omega)
    · rw [ih5, f3, List.dropLast_cons₂]

/-- Popping the whole stack: the return trace reads the stack entries
top-down, no check fails, and the stack register returns to zero. -/
lemma retTrace_spec : ∀ (n : Nat) (c : Chip), c.stack_register = n →
    retTrace n c = ((List.range n).map c.stack).reverse ∧
    (retSeq n c).ok = c.ok ∧
    (retSeq n c).stack_register = 0 := by
  intro n
  induction n with
  | zero => intro c h; exact ⟨by simp [retTrace], rfl, h⟩
  | succ n ih =>
    intro c h
    have hnz : c.stack_register ≠ 0 := by omega
    obtain ⟨f1, f2, f3, f4⟩ := ret_fields c hnz
    have hsr : (ret c).stack_register = n := by rw [f1, h]; omega
    obtain ⟨ih1, ih2, ih3⟩ := ih (ret c) hsr
    refine ⟨?_, ?_, ih3⟩
    · simp only [retTrace]
      rw [ih1, f3, f4, h, List.range_succ, List.map_append, List.reverse_append]
      simp
    · show (retSeq n (ret c)).ok = c.ok
      rw [ih2, f2]

/-- C4.  From an empty call stack, N calls fitting in the 24-entry
stack followed by N returns succeed without any fatal check, the pushed
pc values are the initial pc followed by all but the last call target,
the returns restore exactly that pushed sequence in reverse order, a
25th call on the full stack fails fatally, and one further return on
the emptied stack fails fatally. -/
theorem call_ret_round_trip (addrs : List Nat) (c : Chip)
    (hok : c.ok = true) (hsr : c.stack_register = 0)
    (hlen : addrs.length ≤ STACK_SIZE) :
    (callSeq addrs c).ok = true ∧
    pushTrace c addrs = (c.pc :: addrs).dropLast ∧
    retTrace addrs.length (callSeq addrs c) = (pushTrace c addrs).reverse ∧
    (retSeq addrs.length (callSeq addrs c)).ok = true ∧
    (∀ a, addrs.length = STACK_SIZE → (call a (callSeq addrs c)).ok = false) ∧
    (ret (retSeq addrs.length (callSeq addrs c))).ok = false := by
  obtain ⟨s1, s2, s3, s4, s5⟩ := callSeq_spec addrs c (by omega)
  obtain ⟨r1, r2, r3⟩ := retTrace_spec addrs.length (callSeq addrs c) (by rw [s1, hsr, Nat.zero_add])
  refine ⟨s2.trans hok, s5, ?_, r2.trans (s2.trans hok), ?_, ?_⟩
  · rw [r1]
    congr 1
    refine List.ext_getElem ?_ ?_
    · simp [pushTrace_length]
    · intro k hk1 hk2
      have hk : k < addrs.length := by simpa using hk1
      have hs := s4 k hk
      rw [hsr, Nat.zero_add] at hs
      have : ((List.range addrs.length).map (callSeq addrs c).stack)[k] =
          (callSeq addrs c).stack k := by simp
      rw [this, hs]
      exact List.getD_eq_getElem (pushTrace c addrs) 0 hk2
  · intro a hfull
    have hno : ¬ ((callSeq addrs c).stack_register < STACK_SIZE) := by
      rw [s1, hsr, hfull]
      omega
    rw [call, if_neg hno]
  · rw [ret, if_pos r3]

/-- Projection of xorPixel on the display map. -/
lemma xorPixel_d (i j : Nat) (s : DrawSt) :
    (xorPixel i j s).d = Function.update s.d (i + j * DISPLAY_WIDTH)
      (Nat.xor (s.d (i + j * DISPLAY_WIDTH)) 1 % 256) := rfl

/-- Projection of xorPixel on the ok flag: it records the display_idx
bound checks. -/
lemma xorPixel_ok (i j : Nat) (s : DrawSt) :
    (xorPixel i j s).ok =
      (s.ok && (decide (i < DISPLAY_WIDTH) && decide (j < DISPLAY_HEIGHT))) := rfl

/-- Every display access of a sprite row keeps the ok flag: wrap-mode
coordinates are reduced modulo the display dimensions and clamp-mode
coordinates are tested against them before the access. -/
lemma drawCols_ok (mode : DisplayMode) (b i0 j0 j1 : Nat) :
    ∀ (L : List Nat) (s : DrawSt), (drawCols mode b i0 j0 j1 L s).ok = s.ok := by
  intro L
  induction L with
  | nil => intro s; cases mode <;> rfl
  | cons i1 rest ih =>
    intro s
    cases hbit : spriteBit b i1 with
    | false =>
      cases mode <;>
        simp only [drawCols, hbit, Bool.false_eq_true, if_false] <;> exact ih s
    | true =>
      cases mode with
      | WRAP =>
        simp only [drawCols, hbit, eq_self_iff_true, if_true]
        rw [ih, xorPixel_ok]
        have h1 : (i0 + i1) % DISPLAY_WIDTH < DISPLAY_WIDTH := Nat.mod_lt _ (by decide)
        have h2 : (j0 + j1) % DISPLAY_HEIGHT < DISPLAY_HEIGHT := Nat.mod_lt _ (by decide)
        simp [h1, h2]
      | CLAMP =>
        simp only [drawCols, hbit, eq_self_iff_true, if_true]
        by_cases hedge : DISPLAY_WIDTH ≤ (i0 + i1) % 256 ∨ DISPLAY_HEIGHT ≤ (j0 + j1) % 256
        · rw [if_pos hedge]
        · rw [if_neg hedge, ih, xorPixel_ok]
          push_neg at hedge
          simp [hedge.1, hedge.2]

/-- The outer draw loop keeps the ok flag. -/
lemma drawRows_ok (mode : DisplayMode) (mem : Nat → Nat) (ar i0 j0 : Nat) :
    ∀ (J : List Nat) (s : DrawSt), (drawRows mode mem ar i0 j0 J s).ok = s.ok := by
  intro J
  induction J with
  | nil => intro s; rfl
  | cons j1 rest ih =>
    intro s
    simp only [drawRows]
    rw [ih, drawCols_ok]

/-- A sprite row never touches a display cell at or beyond the buffer
size, in either mode. -/
lemma drawCols_d_frame (mode : DisplayMode) (b i0 j0 j1 : Nat) :
    ∀ (L : List Nat) (s : DrawSt) (idx : Nat), DISPLAY_WIDTH * DISPLAY_HEIGHT ≤ idx →
      (drawCols mode b i0 j0 j1 L s).d idx = s.d idx := by
  intro L
  induction L with
  | nil => intro s idx _; cases mode <;> rfl
  | cons i1 rest ih =>
    intro s idx hidx
    cases hbit : spriteBit b i1 with
    | false =>
      cases mode <;>
        simp only [drawCols, hbit, Bool.false_eq_true, if_false] <;> exact ih s idx hidx
    | true =>
      cases mode with
      | WRAP =>
        simp only [drawCols, hbit, eq_self_iff_true, if_true]
        rw [ih _ idx hidx, xorPixel_d, Function.update_noteq]
        have h1 : (i0 + i1) % DISPLAY_WIDTH < DISPLAY_WIDTH := Nat.mod_lt _ (by decide)
        have h2 : (j0 + j1) % DISPLAY_HEIGHT < DISPLAY_HEIGHT := Nat.mod_lt _ (by decide)
        simp only [DISPLAY_WIDTH, DISPLAY_HEIGHT] at *
        omega
      | CLAMP =>
        simp only [drawCols, hbit, eq_self_iff_true, if_true]
        by_cases hedge : DISPLAY_WIDTH ≤ (i0 + i1) % 256 ∨ DISPLAY_HEIGHT ≤ (j0 + j1) % 256
        · rw [if_pos hedge]
        · rw [if_neg hedge, ih _ idx hidx, xorPixel_d, Function.update_noteq]
          push_neg at hedge
          simp only [DISPLAY_WIDTH, DISPLAY_HEIGHT] at *
          omega

/-- The outer draw loop never touches a display cell at or beyond the
buffer size. -/
lemma drawRows_d_frame (mode : DisplayMode) (mem : Nat → Nat) (ar i0 j0 : Nat) :
    ∀ (J : List Nat) (s : DrawSt) (idx : Nat), DISPLAY_WIDTH * DISPLAY_HEIGHT ≤ idx →
      (drawRows mode mem ar i0 j0 J s).d idx = s.d idx := by
  intro J
  induction J with
  | nil => intro s idx _; rfl
  | cons j1 rest ih =>
    intro s idx hidx
    simp only [drawRows]
    rw [ih _ idx hidx, drawCols_d_frame _ _ _ _ _ _ _ idx hidx]

/-- Clamp-mode sprite row on an in-bounds cell, without uint8 overflow:
the cell is flipped exactly when the row is the cell's row and the cell
corresponds to a set sprite bit whose column offset is among the ones
still to be drawn; the early row exit only skips pixels past the right
edge. -/
lemma drawCols_clamp_d (b i0 j0 j1 : Nat) (hi : i0 + 8 ≤ 256) (hj : j0 + j1 < 256) :
    ∀ (L : List Nat), L.Pairwise (· < ·) → (∀ a ∈ L, a < 8) →
    ∀ (s : DrawSt) (x y : Nat), x < DISPLAY_WIDTH → y < DISPLAY_HEIGHT →
      (drawCols DisplayMode.CLAMP b i0 j0 j1 L s).d (x + y * DISPLAY_WIDTH) =
        if j0 + j1 = y ∧ i0 ≤ x ∧ (x - i0) ∈ L ∧ spriteBit b (x - i0) = true
        then Nat.xor (s.d (x + y * DISPLAY_WIDTH)) 1 % 256
        else s.d (x + y * DISPLAY_WIDTH) := by
  intro L
  induction L with
  | nil =>
    intro _ _ s x y hx hy
    simp [drawCols]
  | cons i1 rest ih =>
    intro hpw hbound s x y hx hy
    have hlt : ∀ a ∈ rest, i1 < a := (List.pairwise_cons.mp hpw).1
    have hpw' := (List.pairwise_cons.mp hpw).2
    have hb8 : i1 < 8 := hbound i1 (by simp)
    have hbound' : ∀ a ∈ rest, a < 8 := fun a ha => hbound a (by simp [ha])
    have hi255 : (i0 + i1) % 256 = i0 + i1 := Nat.mod_eq_of_lt (by omega)
    have hj255 : (j0 + j1) % 256 = j0 + j1 := Nat.mod_eq_of_lt (by omega)
    cases hbit : spriteBit b i1 with
    | false =>
      simp only [drawCols, hbit, Bool.false_eq_true, if_false]
      rw [ih hpw' hbound' s x y hx hy]
      have hiff : (j0 + j1 = y ∧ i0 ≤ x ∧ (x - i0) ∈ i1 :: rest ∧ spriteBit b (x - i0) = true) ↔
          (j0 + j1 = y ∧ i0 ≤ x ∧ (x - i0) ∈ rest ∧ spriteBit b (x - i0) = true) := by
        constructor
        · rintro ⟨h1, h2, h3, h4⟩
          rcases List.mem_cons.mp h3 with h5 | h5
          · rw [h5] at h4
            rw [hbit] at h4
            exact absurd h4 (by simp)
          · exact ⟨h1, h2, h5, h4⟩
        · rintro ⟨h1, h2, h3, h4⟩
          exact ⟨h1, h2, List.mem_cons_of_mem _ h3, h4⟩
      rw [if_congr hiff rfl rfl]
    | true =>
      simp only [drawCols, hbit, eq_self_iff_true, if_true]
      rw [hi255, hj255]
      by_cases hedge : DISPLAY_WIDTH ≤ i0 + i1 ∨ DISPLAY_HEIGHT ≤ j0 + j1
      · rw [if_pos hedge]
        have hnc : ¬ (j0 + j1 = y ∧ i0 ≤ x ∧ (x - i0) ∈ i1 :: rest ∧
            spriteBit b (x - i0) = true) := by
          rintro ⟨h1, h2, h3, _⟩
          have hxi : i1 ≤ x - i0 := by
            rcases List.mem_cons.mp h3 with h5 | h5
            · omega
            · exact le_of_lt (hlt _ h5)
          simp only [DISPLAY_WIDTH, DISPLAY_HEIGHT] at hedge hx hy
          omega
        rw [if_neg hnc]
      · rw [if_neg hedge]
        push_neg at hedge
        rw [ih hpw' hbound' _ x y hx hy]
        by_cases hxy : x = i0 + i1 ∧ y = j0 + j1
        · obtain ⟨hxe, hye⟩ := hxy
          have hcell : x + y * DISPLAY_WIDTH = (i0 + i1) + (j0 + j1) * DISPLAY_WIDTH := by
            rw [hxe, hye]
          have hnr : ¬ (j0 + j1 = y ∧ i0 ≤ x ∧ (x - i0) ∈ rest ∧
              spriteBit b (x - i0) = true) := by
            rintro ⟨_, h2, h3, _⟩
            have hxi : x - i0 = i1 := by omega
            rw [hxi] at h3
            exact absurd (hlt i1 h3) (lt_irrefl i1)
          rw [if_neg hnr, xorPixel_d, hcell, Function.update_same]
          have hc : j0 + j1 = y ∧ i0 ≤ x ∧ (x - i0) ∈ i1 :: rest ∧
              spriteBit b (x - i0) = true := by
            refine ⟨hye.symm, by omega, ?_, ?_⟩
            · rw [show x - i0 = i1 by omega]
              simp
            · rw [show x - i0 = i1 by omega]
              exact hbit
          rw [if_pos hc]
        · have hne : x + y * DISPLAY_WIDTH ≠ (i0 + i1) + (j0 + j1) * DISPLAY_WIDTH := by
            intro he
            apply hxy
            simp only [DISPLAY_WIDTH, DISPLAY_HEIGHT] at he hx hy hedge
            omega
          rw [xorPixel_d, Function.update_noteq hne]
          have hiff : (j0 + j1 = y ∧ i0 ≤ x ∧ (x - i0) ∈ i1 :: rest ∧
              spriteBit b (x - i0) = true) ↔
              (j0 + j1 = y ∧ i0 ≤ x ∧ (x - i0) ∈ rest ∧ spriteBit b (x - i0) = true) := by
            constructor
            · rintro ⟨h1, h2, h3, h4⟩
              rcases List.mem_cons.mp h3 with h5 | h5
              · exact absurd ⟨by omega, h1.symm⟩ hxy
              · exact ⟨h1, h2, h5, h4⟩
            · rintro ⟨h1, h2, h3, h4⟩
              exact ⟨h1, h2, List.mem_cons_of_mem _ h3, h4⟩
          rw [if_congr hiff rfl rfl]

/-- Clamp-mode drawing on an in-bounds cell, without uint8 overflow:
the cell is flipped exactly when some drawn row passes through it at a
set sprite bit. -/
lemma drawRows_clamp_d (mem : Nat → Nat) (ar i0 j0 : Nat) (hi : i0 + 8 ≤ 256) :
    ∀ (J : List Nat), J.Pairwise (· < ·) → (∀ a ∈ J, j0 + a < 256) →
    ∀ (s : DrawSt) (x y : Nat), x < DISPLAY_WIDTH → y < DISPLAY_HEIGHT →
      (drawRows DisplayMode.CLAMP mem ar i0 j0 J s).d (x + y * DISPLAY_WIDTH) =
        if ∃ j1 ∈ J, j0 + j1 = y ∧ i0 ≤ x ∧ (x - i0) ∈ List.range 8 ∧
            spriteBit (mem (ar + j1)) (x - i0) = true
        then Nat.xor (s.d (x + y * DISPLAY_WIDTH)) 1 % 256
        else s.d (x + y * DISPLAY_WIDTH) := by
  intro J
  induction J with
  | nil =>
    intro _ _ s x y hx hy
    simp [drawRows]
  | cons j1 rest ih =>
    intro hpw hbound s x y hx hy
    have hlt : ∀ a ∈ rest, j1 < a := (List.pairwise_cons.mp hpw).1
    have hpw' := (List.pairwise_cons.mp hpw).2
    have hbound' : ∀ a ∈ rest, j0 + a < 256 := fun a ha => hbound a (by simp [ha])
    have hj : j0 + j1 < 256 := hbound j1 (by simp)
    have hrow := drawCols_clamp_d (mem (ar + j1)) i0 j0 j1 hi hj (List.range 8)
      (List.pairwise_lt_range 8) (fun a ha => List.mem_range.mp ha) s x y hx hy
    simp only [drawRows]
    rw [ih hpw' hbound' _ x y hx hy]
    by_cases hy1 : j0 + j1 = y
    · have hnr : ¬ (∃ j1' ∈ rest, j0 + j1' = y ∧ i0 ≤ x ∧ (x - i0) ∈ List.range 8 ∧
          spriteBit (mem (ar + j1')) (x - i0) = true) := by
        rintro ⟨j1', hmem, h1, _⟩
        have := hlt j1' hmem
        omega
      rw [if_neg hnr, hrow]
      have hiff : (j0 + j1 = y ∧ i0 ≤ x ∧ (x - i0) ∈ List.range 8 ∧
          spriteBit (mem (ar + j1)) (x - i0) = true) ↔
          (∃ j1' ∈ j1 :: rest, j0 + j1' = y ∧ i0 ≤ x ∧ (x - i0) ∈ List.range 8 ∧
            spriteBit (mem (ar + j1')) (x - i0) = true) := by
        constructor
        · rintro ⟨h1, h2, h3, h4⟩
          exact ⟨j1, by simp, h1, h2, h3, h4⟩
        · rintro ⟨j1', hmem, h1, h2, h3, h4⟩
          rcases List.mem_cons.mp hmem with h5 | h5
          · rw [h5] at h1 h4
            exact ⟨h1, h2, h3, h4⟩
          · have := hlt j1' h5
            omega
      rw [if_congr hiff rfl rfl]
    · have hrow' : (drawCols DisplayMode.CLAMP (mem (ar + j1)) i0 j0 j1 (List.range 8) s).d
          (x + y * DISPLAY_WIDTH) = s.d (x + y * DISPLAY_WIDTH) := by
        rw [hrow, if_neg (fun hc => hy1 hc.1)]
      rw [hrow']
      have hiff : (∃ j1' ∈ j1 :: rest, j0 + j1' = y ∧ i0 ≤ x ∧ (x - i0) ∈ List.range 8 ∧
          spriteBit (mem (ar + j1')) (x - i0) = true) ↔
          (∃ j1' ∈ rest, j0 + j1' = y ∧ i0 ≤ x ∧ (x - i0) ∈ List.range 8 ∧
            spriteBit (mem (ar + j1')) (x - i0) = true) := by
        constructor
        · rintro ⟨j1', hmem, h1, h2, h3, h4⟩
          rcases List.mem_cons.mp hmem with h5 | h5
          · rw [h5] at h1
            exact absurd h1 hy1
          · exact ⟨j1', h5, h1, h2, h3, h4⟩
        · rintro ⟨j1', hmem, h1, h2, h3, h4⟩
          exact ⟨j1', List.mem_cons_of_mem _ hmem, h1, h2, h3, h4⟩
      rw [if_congr hiff rfl rfl]

/-- C3 (counterexample).  In clamp mode a sprite whose x-coordinate
register holds 250 has every pixel at or past the right display edge
(all pixel x-coordinates are at least 250), so under the claim no
display cell may change; but the uint8 coordinate truncation wraps
pixel column 7 to x = 1 and the draw flips display cell 1. -/
theorem draw_clamp_edge_counterexample :
    64 ≤ chipC3.registers 0 ∧
    chipC3.display 1 = 0 ∧
    (draw DisplayMode.CLAMP 0 1 1 chipC3).display 1 = 1 := by
  refine ⟨by decide, by decide, by decide⟩

/-- C3 (amended).  Sprite drawing never fails a display_idx bound check
in either mode and never touches a cell at or past the buffer size; and
in clamp mode, provided the 8-bit coordinate sums do not wrap (start
x-coordinate at most 248 and start y-coordinate plus height at most
256), an in-bounds cell is XORed exactly when it lies under a set
sprite bit, and every pixel at or past an edge is not drawn. -/
theorem draw_wrap_clamp_policy (vx vy height : Nat) (c : Chip) :
    (draw DisplayMode.WRAP vx vy height c).ok = c.ok ∧
    (draw DisplayMode.CLAMP vx vy height c).ok = c.ok ∧
    (∀ (mode : DisplayMode) (idx : Nat), DISPLAY_WIDTH * DISPLAY_HEIGHT ≤ idx →
      (draw mode vx vy height c).display idx = c.display idx) ∧
    (c.registers vx + 8 ≤ 256 → c.registers vy + height ≤ 256 →
      ∀ x y, x < DISPLAY_WIDTH → y < DISPLAY_HEIGHT →
        (draw DisplayMode.CLAMP vx vy height c).display (x + y * DISPLAY_WIDTH) =
          if c.registers vx ≤ x ∧ x < c.registers vx + 8 ∧
              c.registers vy ≤ y ∧ y < c.registers vy + height ∧
              spriteBit (c.memory (c.address_register + (y - c.registers vy)))
                (x - c.registers vx) = true
          then Nat.xor (c.display (x + y * DISPLAY_WIDTH)) 1 % 256
          else c.display (x + y * DISPLAY_WIDTH)) := by
  refine ⟨?_, ?_, ?_, ?_⟩
  · simp only [draw]
    rw [drawRows_ok]
  · simp only [draw]
    rw [drawRows_ok]
  · intro mode idx hidx
    simp only [draw]
    rw [drawRows_d_frame _ _ _ _ _ _ _ idx hidx]
  · intro h8 hh x y hx hy
    simp only [draw]
    rw [drawRows_clamp_d c.memory c.address_register (c.registers vx) (c.registers vy) h8
      (List.range height) (List.pairwise_lt_range height)
      (fun a ha => by have := List.mem_range.mp ha; omega) _ x y hx hy]
    have hiff : (∃ j1 ∈ List.range height, c.registers vy + j1 = y ∧ c.registers vx ≤ x ∧
        (x - c.registers vx) ∈ List.range 8 ∧
        spriteBit (c.memory (c.address_register + j1)) (x - c.registers vx) = true) ↔
        (c.registers vx ≤ x ∧ x < c.registers vx + 8 ∧
          c.registers vy ≤ y ∧ y < c.registers vy + height ∧
          spriteBit (c.memory (c.address_register + (y - c.registers vy)))
            (x - c.registers vx) = true) := by
      constructor
      · rintro ⟨j1, hmem, h1, h2, h3, h4⟩
        have hj1 := List.mem_range.mp hmem
        have hx8 := List.mem_range.mp h3
        have hj1y : y - c.registers vy = j1 := by omega
        rw [hj1y]
        exact ⟨h2, by omega, by omega, by omega, h4⟩
      · rintro ⟨h1, h2, h3, h4, h5⟩
        refine ⟨y - c.registers vy, List.mem_range.mpr (by omega), by omega, h1,
          List.mem_range.mpr (by omega), h5⟩
    rw [if_congr hiff rfl rfl]

/-- C3 (witness).  With start coordinates (10, 5) and a single sprite
row 0x80, the clamp-mode draw flips the cell at (10, 5), and the
wrap-mode draw passes every bound check. -/
theorem draw_wrap_clamp_policy_witness :
    chipW3.registers 0 + 8 ≤ 256 ∧ chipW3.registers 1 + 2 ≤ 256 ∧
    (draw DisplayMode.CLAMP 0 1 2 chipW3).display (10 + 5 * DISPLAY_WIDTH) =
      Nat.xor (chipW3.display (10 + 5 * DISPLAY_WIDTH)) 1 % 256 ∧
    (draw DisplayMode.WRAP 0 1 2 chipW3).ok = chipW3.ok := by
  have h := draw_wrap_clamp_policy 0 1 2 chipW3
  have h4 := h.2.2.2 (by decide) (by decide) 10 5 (by decide) (by decide)
  exact ⟨by decide, by decide, h4.trans (by decide), h.1⟩

/-- C4 (witness).  Three calls from the initial pc 512 to 768, 1024 and
800 push the trace [512, 768, 1024]; three returns then replay it
reversed, and a fourth return fails fatally. -/
theorem call_ret_round_trip_witness :
    chipZero.ok = true ∧ chipZero.stack_register = 0 ∧
    ([768, 1024, 800] : List Nat).length ≤ STACK_SIZE ∧
    retTrace 3 (callSeq [768, 1024, 800] chipZero) =
      (pushTrace chipZero [768, 1024, 800]).reverse ∧
    (ret (retSeq 3 (callSeq [768, 1024, 800] chipZero))).ok = false := by
  have h := call_ret_round_trip [768, 1024, 800] chipZero (by decide) (by decide) (by decide)
  exact ⟨by decide, by decide, by decide, h.2.2.1, h.2.2.2.2.2⟩

end Chip8
